import Mathlib

/-!
Verification of the recurring-transaction scheduling engine of the `finances`
repository (`app/services/recurring_transaction_service.py` and
`app/repositories/recurring_transaction_repository.py`).

The Python code works on `datetime.date` values.  We embed dates as
year/month/day triples of naturals with the Gregorian validity predicate and
order them (and compute weekdays) through a day count `rataDie` — the number
of days since 0000-03-01, computed by the standard civil-calendar formula.
On valid dates this order coincides with Python's lexicographic date order,
and `timedelta`/`relativedelta` arithmetic is embedded by structural
successor-day and add-month functions whose agreement with the day count is
proved below.

The global mutable `date.today()` / `datetime.now(timezone.utc)` references of
the source are passed as an explicit `today` parameter, and the date part of a
creation timestamp stands in for the full timestamp.
-/

namespace Finances

/-- Gregorian calendar date, mirroring Python `datetime.date` fields. -/
structure Date where
  year : Nat
  month : Nat
  day : Nat
deriving DecidableEq, Repr

/-- Length of a month under the Gregorian leap rule, as `datetime`/`dateutil` use it. -/
def daysInMonth (y m : Nat) : Nat :=
  if m = 2 then (if (y % 4 = 0 ∧ y % 100 ≠ 0) ∨ y % 400 = 0 then 29 else 28)
  else if m = 4 ∨ m = 6 ∨ m = 9 ∨ m = 11 then 30 else 31

/-- Validity of a date: positive year (as in Python), month 1..12, day within the month. -/
def Date.Valid (d : Date) : Prop :=
  1 ≤ d.year ∧ 1 ≤ d.month ∧ d.month ≤ 12 ∧ 1 ≤ d.day ∧ d.day ≤ daysInMonth d.year d.month

instance (d : Date) : Decidable d.Valid := by
  unfold Date.Valid
  infer_instance

/-- Day count of a civil date: days elapsed since 0000-03-01, by the standard
era/year-of-era/day-of-year formula.  Total order and weekday of Python dates
are expressed through this count. -/
def rataDie (d : Date) : Nat :=
  let y := if d.month ≤ 2 then d.year - 1 else d.year
  let era := y / 400
  let yoe := y - era * 400
  let mp := if 2 < d.month then d.month - 3 else d.month + 9
  let doy := (153 * mp + 2) / 5 + d.day - 1
  let doe := yoe * 365 + yoe / 4 - yoe / 100 + doy
  era * 146097 + doe

/-- Weekday with Python's convention: Monday = 0 … Sunday = 6
(`date.weekday()`).  1970-01-01, day count 719468, was a Thursday (3). -/
def weekday (d : Date) : Nat := (rataDie d + 2) % 7

/-- Python date comparison `a <= b` (calendar order). -/
def dle (a b : Date) : Bool := decide (rataDie a ≤ rataDie b)

/-- Python date comparison `a < b` (calendar order). -/
def dlt (a b : Date) : Bool := decide (rataDie a < rataDie b)

/-- Python `max(a, b)` on dates: returns `b` exactly when `b > a`. -/
def dateMax (a b : Date) : Date := if dlt a b then b else a

/-- Successor day, the embedding of `+ timedelta(days=1)`. -/
def nextDay (d : Date) : Date :=
  if d.day < daysInMonth d.year d.month then ⟨d.year, d.month, d.day + 1⟩
  else if d.month < 12 then ⟨d.year, d.month + 1, 1⟩
  else ⟨d.year + 1, 1, 1⟩

/-- Addition of `n` days, the embedding of `+ timedelta(days=n)` for `n ≥ 0`. -/
def addDays : Nat → Date → Date
  | 0, d => d
  | n + 1, d => nextDay (addDays n d)

/-- One-month step of `dateutil`'s `relativedelta(months=1)`: advance the
month and clamp the day to the target month's length. -/
def addOneMonth (d : Date) : Date :=
  if d.month = 12 then ⟨d.year + 1, 1, min d.day (daysInMonth (d.year + 1) 1)⟩
  else ⟨d.year, d.month + 1, min d.day (daysInMonth d.year (d.month + 1))⟩

/-- Python `date.replace(day=t)`.  Python raises `ValueError` when `t` is not
a day of the month; the validity theorems below show the service only calls it
on days that exist, so the total embedding is faithful on those calls. -/
def replaceDay (d : Date) (t : Nat) : Date := ⟨d.year, d.month, t⟩

theorem Date.valid_mk (y m day : Nat) (h1 : 1 ≤ y) (h2 : 1 ≤ m) (h3 : m ≤ 12)
    (h4 : 1 ≤ day) (h5 : day ≤ daysInMonth y m) : Date.Valid ⟨y, m, day⟩ :=
  ⟨h1, h2, h3, h4, h5⟩

theorem daysInMonth_pos (y m : Nat) : 1 ≤ daysInMonth y m := by
  unfold daysInMonth
  split
  · split <;> omega
  · split <;> omega

theorem daysInMonth_ge_28 (y m : Nat) : 28 ≤ daysInMonth y m := by
  unfold daysInMonth
  split
  · split <;> omega
  · split <;> omega

theorem daysInMonth_le_31 (y m : Nat) : daysInMonth y m ≤ 31 := by
  unfold daysInMonth
  split
  · split <;> omega
  · split <;> omega

theorem rataDie_day_linear (d : Date) (h : d.Valid) :
    rataDie d + 1 = rataDie ⟨d.year, d.month, 1⟩ + d.day := by
  obtain ⟨h1, h2, h3, h4, h5⟩ := h
  unfold rataDie
  simp only
  split <;> omega

theorem rataDie_month_succ (y m : Nat) (hy : 1 ≤ y) (h1 : 1 ≤ m) (h2 : m ≤ 11) :
    rataDie ⟨y, m + 1, 1⟩ = rataDie ⟨y, m, 1⟩ + daysInMonth y m := by
  unfold rataDie daysInMonth
  interval_cases m <;> norm_num <;> (try split) <;> omega

theorem rataDie_year_succ (y : Nat) (_hy : 1 ≤ y) :
    rataDie ⟨y + 1, 1, 1⟩ = rataDie ⟨y, 12, 1⟩ + 31 := by
  unfold rataDie
  norm_num
  omega

theorem nextDay_valid (d : Date) (h : d.Valid) : (nextDay d).Valid := by
  obtain ⟨h1, h2, h3, h4, h5⟩ := h
  unfold nextDay
  split
  · refine ⟨?_, ?_, ?_, ?_, ?_⟩ <;> dsimp only <;> omega
  · split
    · have hp := daysInMonth_pos d.year (d.month + 1)
      refine ⟨?_, ?_, ?_, ?_, ?_⟩ <;> dsimp only <;> omega
    · have hp := daysInMonth_pos (d.year + 1) 1
      refine ⟨?_, ?_, ?_, ?_, ?_⟩ <;> dsimp only <;> omega

theorem rataDie_nextDay (d : Date) (h : d.Valid) : rataDie (nextDay d) = rataDie d + 1 := by
  have hv := h
  obtain ⟨h1, h2, h3, h4, h5⟩ := hv
  unfold nextDay
  split
  · have ha := rataDie_day_linear d h
    have hb := rataDie_day_linear ⟨d.year, d.month, d.day + 1⟩
      ⟨h1, h2, h3, by show 1 ≤ d.day + 1; omega,
        by show d.day + 1 ≤ daysInMonth d.year d.month; omega⟩
    dsimp only at hb
    omega
  · split
    · have ha := rataDie_day_linear d h
      have hb := rataDie_month_succ d.year d.month h1 h2 (by omega)
      omega
    · have hm : d.month = 12 := by omega
      have hc : daysInMonth d.year 12 = 31 := by
        unfold daysInMonth
        norm_num
      have hdc : daysInMonth d.year d.month = 31 := by
        rw [hm]
        exact hc
      have hd : d.day = 31 := by omega
      have ha := rataDie_day_linear d h
      have hb := rataDie_year_succ d.year h1
      rw [hm] at ha
      omega

theorem addDays_succ (n : Nat) (d : Date) : addDays (n + 1) d = nextDay (addDays n d) := rfl

theorem addDays_valid (n : Nat) (d : Date) (h : d.Valid) : (addDays n d).Valid := by
  induction n with
  | zero => exact h
  | succ k ih => exact nextDay_valid _ ih

theorem rataDie_addDays (n : Nat) (d : Date) (h : d.Valid) :
    rataDie (addDays n d) = rataDie d + n := by
  induction n with
  | zero => simp [addDays]
  | succ k ih =>
    rw [addDays_succ, rataDie_nextDay (addDays k d) (addDays_valid k d h), ih]
    omega

theorem weekday_lt_7 (d : Date) : weekday d < 7 := Nat.mod_lt _ (by omega)

theorem dle_iff (a b : Date) : dle a b = true ↔ rataDie a ≤ rataDie b := by
  simp [dle]

theorem dlt_iff (a b : Date) : dlt a b = true ↔ rataDie a < rataDie b := by
  simp [dlt]

theorem replace_addOneMonth (d : Date) (t : Nat) (h : d.Valid) (ht1 : 1 ≤ t)
    (ht2 : t ≤ 28) :
    (replaceDay (addOneMonth d) t).Valid ∧
      rataDie (replaceDay (addOneMonth d) t) + 1 =
        rataDie ⟨d.year, d.month, 1⟩ + daysInMonth d.year d.month + t := by
  obtain ⟨h1, h2, h3, h4, h5⟩ := h
  unfold addOneMonth replaceDay
  split
  · rename_i hm
    dsimp only
    have hg := daysInMonth_ge_28 (d.year + 1) 1
    have hval : Date.Valid ⟨d.year + 1, 1, t⟩ :=
      Date.valid_mk _ _ _ (by omega) (by omega) (by omega) ht1 (by omega)
    refine ⟨hval, ?_⟩
    have ha := rataDie_day_linear ⟨d.year + 1, 1, t⟩ hval
    dsimp only at ha
    have hb := rataDie_year_succ d.year h1
    have hc : daysInMonth d.year 12 = 31 := by
      unfold daysInMonth
      norm_num
    rw [hm]
    omega
  · rename_i hm
    dsimp only
    have hg := daysInMonth_ge_28 d.year (d.month + 1)
    have hval : Date.Valid ⟨d.year, d.month + 1, t⟩ :=
      Date.valid_mk _ _ _ h1 (by omega) (by omega) ht1 (by omega)
    refine ⟨hval, ?_⟩
    have ha := rataDie_day_linear ⟨d.year, d.month + 1, t⟩ hval
    dsimp only at ha
    have hb := rataDie_month_succ d.year d.month h1 h2 (by omega)
    omega

theorem addOneMonth_valid (d : Date) (h : d.Valid) : (addOneMonth d).Valid := by
  obtain ⟨h1, h2, h3, h4, h5⟩ := h
  unfold addOneMonth
  split
  · have hp := daysInMonth_pos (d.year + 1) 1
    refine ⟨?_, ?_, ?_, ?_, ?_⟩ <;> dsimp only <;> omega
  · have hp := daysInMonth_pos d.year (d.month + 1)
    refine ⟨?_, ?_, ?_, ?_, ?_⟩ <;> dsimp only <;> omega

theorem rataDie_addOneMonth_gt (d : Date) (h : d.Valid) :
    rataDie d < rataDie (addOneMonth d) := by
  have hv := h
  obtain ⟨h1, h2, h3, h4, h5⟩ := hv
  have hd := rataDie_day_linear d h
  unfold addOneMonth
  split
  · rename_i hm
    have hp := daysInMonth_pos (d.year + 1) 1
    have hq := daysInMonth_le_31 d.year d.month
    have hval : Date.Valid ⟨d.year + 1, 1, min d.day (daysInMonth (d.year + 1) 1)⟩ :=
      Date.valid_mk _ _ _ (by omega) (by omega) (by omega) (by omega) (by omega)
    have ha := rataDie_day_linear _ hval
    dsimp only at ha
    have hb := rataDie_year_succ d.year h1
    have hc : daysInMonth d.year 12 = 31 := by
      unfold daysInMonth
      norm_num
    rw [hm] at hd
    omega
  · rename_i hm
    have hp := daysInMonth_pos d.year (d.month + 1)
    have hval : Date.Valid ⟨d.year, d.month + 1, min d.day (daysInMonth d.year (d.month + 1))⟩ :=
      Date.valid_mk _ _ _ h1 (by omega) (by omega) (by omega) (by omega)
    have ha := rataDie_day_linear _ hval
    dsimp only at ha
    have hb := rataDie_month_succ d.year d.month h1 h2 (by omega)
    omega

theorem weekday_addDays (n : Nat) (d : Date) (h : d.Valid) :
    weekday (addDays n d) = (weekday d + n) % 7 := by
  unfold weekday
  rw [rataDie_addDays n d h]
  omega

/-- Recurrence class of a schedule (`RecurringFrequency` in
`app/models/recurring_transaction.py`). -/
inductive RecurringFrequency
  | daily
  | weekly
  | monthly
deriving DecidableEq, Repr

/-- Transaction kind (`TransactionType`); schedules never carry `transfer`. -/
inductive TransactionType
  | income
  | expense
  | transfer
deriving DecidableEq, Repr

/-- Bounded embedding of the weekly probe loop in
`_calculate_next_execution_after`: Python starts at the day after the executed
occurrence and walks forward one day at a time until the weekday matches
`day_of_week`.  For `day_of_week` in 0..6 (the only values the model admits,
`Field(ge=0, le=6)`) a match occurs within 7 probes — proved in
`weekProbe_hit` below — so the bound of 7 never cuts the loop short on the
inputs the service passes. -/
def weekProbe : Nat → Date → Nat → Date
  | 0, probe, _ => probe
  | fuel + 1, probe, dow =>
    if weekday probe = dow then probe else weekProbe fuel (nextDay probe) dow

/-- Embedding of `RecurringTransactionService._calculate_next_execution`:
first due date of a schedule, anchored at `max(start_date, today)`.  The
implicit `date.today()` of the source is the explicit `today` parameter. -/
def calculate_next_execution (frequency : RecurringFrequency)
    (day_of_week day_of_month : Option Nat) (start_date today : Date) : Date :=
  let result := if dle today start_date then start_date else today
  match frequency with
  | .daily => result
  | .weekly =>
    match day_of_week with
    | none => result
    | some w =>
      let current_dow := weekday result
      let days_ahead := if w ≤ current_dow then w + 7 - current_dow else w - current_dow
      addDays days_ahead result
  | .monthly =>
    match day_of_month with
    | none => result
    | some n =>
      let target_day := min n 28
      let rolled := if target_day < result.day then addOneMonth result else result
      replaceDay rolled target_day

/-- Embedding of `RecurringTransactionService._calculate_next_execution_after`:
the occurrence following `current_execution_date`. -/
def calculate_next_execution_after (current_execution_date : Date)
    (frequency : RecurringFrequency) (day_of_week day_of_month : Option Nat) : Date :=
  match frequency with
  | .daily => nextDay current_execution_date
  | .weekly =>
    match day_of_week with
    | none => addDays 7 current_execution_date
    | some w => weekProbe 7 (nextDay current_execution_date) w
  | .monthly =>
    match day_of_month with
    | none => addOneMonth current_execution_date
    | some n => replaceDay (addOneMonth current_execution_date) (min n 28)

/-- The schedule row (`RecurringTransaction` ORM model), with the fields the
engine reads and writes.  Amount is a scaled decimal, embedded as `Int`. -/
structure RecurringTransaction where
  id : Nat
  workspace_id : Nat
  user_id : Nat
  type : TransactionType
  account_id : Nat
  category_id : Nat
  amount : Int
  description : Option String
  frequency : RecurringFrequency
  day_of_week : Option Nat
  day_of_month : Option Nat
  start_date : Date
  end_date : Option Date
  next_execution_date : Date
  last_executed_at : Option Date
  is_active : Bool
deriving DecidableEq, Repr

/-- A materialized ledger transaction, with the fields
`_create_transaction_from_recurring` fills in.  The date part of the
`datetime.now(timezone.utc)` creation timestamp is embedded as `today`. -/
structure Transaction where
  workspace_id : Nat
  user_id : Nat
  type : TransactionType
  account_id : Nat
  category_id : Nat
  amount : Int
  description : Option String
  transaction_date : Date
  recurring_transaction_id : Nat
deriving DecidableEq, Repr

/-- Embedding of `_create_transaction_from_recurring`. -/
def create_transaction_from_recurring (r : RecurringTransaction) (today : Date) :
    Transaction :=
  { workspace_id := r.workspace_id
    user_id := r.user_id
    type := r.type
    account_id := r.account_id
    category_id := r.category_id
    amount := r.amount
    description := r.description
    transaction_date := today
    recurring_transaction_id := r.id }

/-- Condition `recurring.end_date and recurring.end_date < some_date`
(a `None` end date is falsy in Python). -/
def endDateBefore (r : RecurringTransaction) (x : Date) : Bool :=
  match r.end_date with
  | some e => dlt e x
  | none => false

/-- Errors the on-demand path can raise. -/
inductive ServiceError
  | inactive
  | expired
deriving DecidableEq, Repr

/-- Result of one on-demand `execute` call: the returned value or raised
error, the schedule state as persisted by the call, and the ledger
transactions the call created. -/
structure ExecOutcome where
  result : Except ServiceError Transaction
  recurring : RecurringTransaction
  created : List Transaction
deriving Repr

/-- Embedding of `RecurringTransactionService.execute` (the on-demand
trigger), after the `get_by_id` lookup succeeded.  Repository writes are the
returned record; `datetime.now(timezone.utc)` is passed as `today`. -/
def execute (r : RecurringTransaction) (today : Date) : ExecOutcome :=
  if !r.is_active then ⟨.error .inactive, r, []⟩
  else if endDateBefore r today then
    ⟨.error .expired, { r with is_active := false }, []⟩
  else
    let transaction := create_transaction_from_recurring r today
    let execution_anchor := dateMax r.next_execution_date today
    let next_execution :=
      calculate_next_execution_after execution_anchor r.frequency r.day_of_week r.day_of_month
    let active := if endDateBefore r next_execution then false else r.is_active
    ⟨.ok transaction,
      { r with next_execution_date := next_execution,
               last_executed_at := some today,
               is_active := active },
      [transaction]⟩

/-- State accumulated by one backfill sweep: final schedule row, count of
materialized occurrences, and the created ledger transactions. -/
structure SweepState where
  recurring : RecurringTransaction
  executions : Nat
  created : List Transaction
deriving DecidableEq, Repr

/-- Embedding of the `while` loop of `_execute_backfill_for_recurring`.  The
loop body is translated statement by statement; `fuel` bounds the number of
remaining guard checks and `none` means the bound was hit before the guard
failed.  `sweepFuel` below always suffices (`backfillLoop_terminates`), so the
bounded loop agrees with the unbounded source loop. -/
def backfillLoop (today as_of_date : Date) :
    Nat → RecurringTransaction → Nat → List Transaction → Option SweepState
  | 0, _, _, _ => none
  | fuel + 1, r, executions, created =>
    if r.is_active && dle r.next_execution_date as_of_date then
      let execution_date := r.next_execution_date
      if endDateBefore r execution_date then
        some ⟨{ r with is_active := false }, executions, created⟩
      else
        let transaction := create_transaction_from_recurring r today
        let next_execution :=
          calculate_next_execution_after execution_date r.frequency r.day_of_week r.day_of_month
        let active := if endDateBefore r next_execution then false else r.is_active
        backfillLoop today as_of_date fuel
          { r with next_execution_date := next_execution,
                   last_executed_at := some today,
                   is_active := active }
          (executions + 1) (created ++ [transaction])
    else some ⟨r, executions, created⟩

/-- Fuel that provably dominates the iteration count of the sweep loop: one
more than the days between the cursor and the target date (each iteration
advances the cursor by at least one day). -/
def sweepFuel (as_of_date : Date) (r : RecurringTransaction) : Nat :=
  rataDie as_of_date + 1 - rataDie r.next_execution_date + 1

/-- Embedding of `_execute_backfill_for_recurring`: the early inactive return
followed by the sweep loop. -/
def execute_backfill_for_recurring (today as_of_date : Date)
    (r : RecurringTransaction) : Option SweepState :=
  if !r.is_active then some ⟨r, 0, []⟩
  else backfillLoop today as_of_date (sweepFuel as_of_date r) r 0 []

/-- Error record of the batch report (`RecurringExecutionError`). -/
structure RecurringExecutionError where
  recurring_id : Nat
  workspace_id : Nat
  message : String
deriving DecidableEq, Repr

/-- Batch report (`RecurringExecutionReport`). -/
structure RecurringExecutionReport where
  as_of_date : Date
  processed_templates : Nat
  successful_executions : Nat
  failed_executions : Nat
  errors : List RecurringExecutionError
deriving DecidableEq, Repr

/-- Body of the orchestrator's per-schedule `try/except` block: on success add
the occurrence count to the totals, on any exception append an error record
and bump the failure count, then continue with the next schedule. -/
def processReportItem (sweep : RecurringTransaction → Except String Nat)
    (report : RecurringExecutionReport) (item : RecurringTransaction) :
    RecurringExecutionReport :=
  match sweep item with
  | .ok executed_count =>
    { report with
        successful_executions := report.successful_executions + executed_count }
  | .error msg =>
    { report with
        failed_executions := report.failed_executions + 1,
        errors := report.errors ++ [⟨item.id, item.workspace_id, msg⟩] }

/-- Embedding of `execute_pending_for_all_users` (the global batch
orchestrator).  The discovery query `get_pending_global` runs outside any
`try`, so its failure propagates: it is a parameter of type `Except`.  Each
per-schedule sweep runs inside `try/except Exception`; the sweep's outcome
(occurrence count, or the message of whatever exception the unit of work
raised) is the oracle parameter `sweep`. -/
def execute_pending_for_all_users (as_of_date : Date)
    (discovery : Except String (List RecurringTransaction))
    (sweep : RecurringTransaction → Except String Nat) :
    Except String RecurringExecutionReport :=
  match discovery with
  | .error e => .error e
  | .ok pending_items =>
    .ok (pending_items.foldl (processReportItem sweep)
      ⟨as_of_date, pending_items.length, 0, 0, []⟩)

/-- Sum of the occurrence counts of the sweeps that succeed, in list order. -/
def sweepSuccessTotal (sweep : RecurringTransaction → Except String Nat) :
    List RecurringTransaction → Nat
  | [] => 0
  | item :: rest =>
    (match sweep item with
     | .ok n => n
     | .error _ => 0) + sweepSuccessTotal sweep rest

/-- Error records of the sweeps that fail, in list order: schedule id, tenant
(workspace) id and the exception message. -/
def sweepFailures (sweep : RecurringTransaction → Except String Nat) :
    List RecurringTransaction → List RecurringExecutionError
  | [] => []
  | item :: rest =>
    (match sweep item with
     | .ok _ => []
     | .error msg => [⟨item.id, item.workspace_id, msg⟩]) ++ sweepFailures sweep rest

/-- Bounds the API schema enforces on a recurrence configuration:
`day_of_week` in 0..6 and `day_of_month` in 1..31 (pydantic `Field(ge, le)`
in `RecurringTransactionBase`). -/
def configOK : Option Nat → Option Nat → Bool
  | some w, some n => decide (w ≤ 6) && (decide (1 ≤ n) && decide (n ≤ 31))
  | some w, none => decide (w ≤ 6)
  | none, some n => decide (1 ≤ n) && decide (n ≤ 31)
  | none, none => true

theorem configOK_dow (dow dom : Option Nat) (h : configOK dow dom = true)
    (w : Nat) (hw : dow = some w) : w ≤ 6 := by
  subst hw
  cases dom <;> simp [configOK] at h <;> omega

theorem configOK_dom (dow dom : Option Nat) (h : configOK dow dom = true)
    (n : Nat) (hn : dom = some n) : 1 ≤ n ∧ n ≤ 31 := by
  subst hn
  cases dow <;> simp [configOK] at h <;> omega

theorem addDays_shift (j : Nat) (p : Date) : addDays j (nextDay p) = addDays (j + 1) p := by
  induction j with
  | zero => rfl
  | succ i ihj => exact congrArg nextDay ihj

theorem weekProbe_spec (fuel : Nat) (p : Date) (dow : Nat) (h : p.Valid)
    (hex : ∃ k, k < fuel ∧ weekday (addDays k p) = dow) :
    ∃ k, k < fuel ∧ weekProbe fuel p dow = addDays k p ∧ weekday (addDays k p) = dow := by
  induction fuel generalizing p with
  | zero =>
    obtain ⟨k, hk, _⟩ := hex
    omega
  | succ m ih =>
    by_cases hw : weekday p = dow
    · exact ⟨0, by omega, by simp [weekProbe, hw, addDays], by simpa [addDays] using hw⟩
    · obtain ⟨k, hk1, hk2⟩ := hex
      have hk0 : k ≠ 0 := by
        intro h0
        rw [h0] at hk2
        exact hw (by simpa [addDays] using hk2)
      have hsub : k - 1 + 1 = k := by omega
      obtain ⟨k2, hk21, hk22, hk23⟩ := ih (nextDay p) (nextDay_valid p h)
        ⟨k - 1, by omega, by rw [addDays_shift, hsub]; exact hk2⟩
      refine ⟨k2 + 1, by omega, ?_, ?_⟩
      · rw [show weekProbe (m + 1) p dow = weekProbe m (nextDay p) dow from
          by simp [weekProbe, hw]]
        rw [hk22, addDays_shift]
      · rw [← addDays_shift]
        exact hk23

theorem exists_weekday_hit (p : Date) (h : p.Valid) (dow : Nat) (hd : dow ≤ 6) :
    ∃ k, k < 7 ∧ weekday (addDays k p) = dow := by
  refine ⟨(dow + 7 - weekday p) % 7, Nat.mod_lt _ (by omega), ?_⟩
  rw [weekday_addDays _ _ h]
  have := weekday_lt_7 p
  omega

theorem nextAfter_weekly (d : Date) (h : d.Valid) (w : Nat) (hw : w ≤ 6)
    (dom : Option Nat) :
    ∃ k, 1 ≤ k ∧ k ≤ 7 ∧
      calculate_next_execution_after d .weekly (some w) dom = addDays k d ∧
      weekday (addDays k d) = w := by
  obtain ⟨k, hk1, hk2, hk3⟩ := weekProbe_spec 7 (nextDay d) w (nextDay_valid d h)
    (exists_weekday_hit (nextDay d) (nextDay_valid d h) w hw)
  refine ⟨k + 1, by omega, by omega, ?_, ?_⟩
  · show weekProbe 7 (nextDay d) w = addDays (k + 1) d
    rw [hk2, addDays_shift]
  · rw [← addDays_shift]
    exact hk3

theorem nextAfter_monthly_dom (d : Date) (h : d.Valid) (n : Nat) (hn1 : 1 ≤ n) :
    (calculate_next_execution_after d .monthly none (some n)).Valid ∧
      rataDie d < rataDie (calculate_next_execution_after d .monthly none (some n)) ∧
      (calculate_next_execution_after d .monthly none (some n)).day = min n 28 := by
  have hunf : calculate_next_execution_after d .monthly none (some n) =
      replaceDay (addOneMonth d) (min n 28) := rfl
  have hv := h
  obtain ⟨h1, h2, h3, h4, h5⟩ := hv
  obtain ⟨hval, heq⟩ := replace_addOneMonth d (min n 28) h (by omega) (by omega)
  have hd := rataDie_day_linear d h
  rw [hunf]
  refine ⟨hval, by omega, rfl⟩

theorem nextAfter_gt (d : Date) (freq : RecurringFrequency)
    (dow dom : Option Nat) (h : d.Valid) (hc : configOK dow dom = true) :
    rataDie d < rataDie (calculate_next_execution_after d freq dow dom) ∧
      (calculate_next_execution_after d freq dow dom).Valid := by
  cases freq with
  | daily =>
    exact ⟨by rw [show calculate_next_execution_after d .daily dow dom = nextDay d from rfl,
        rataDie_nextDay d h]; omega,
      nextDay_valid d h⟩
  | weekly =>
    cases dow with
    | none =>
      constructor
      · show rataDie d < rataDie (addDays 7 d)
        rw [rataDie_addDays 7 d h]
        omega
      · exact addDays_valid 7 d h
    | some w =>
      obtain ⟨k, hk1, hk2, hk3, _⟩ := nextAfter_weekly d h w (configOK_dow _ _ hc w rfl) dom
      rw [hk3]
      exact ⟨by rw [rataDie_addDays k d h]; omega, addDays_valid k d h⟩
  | monthly =>
    cases dom with
    | none => exact ⟨rataDie_addOneMonth_gt d h, addOneMonth_valid d h⟩
    | some n =>
      obtain ⟨hval, hlt, _⟩ :=
        nextAfter_monthly_dom d h n (configOK_dom _ _ hc n rfl).1
      exact ⟨hlt, hval⟩

theorem backfillLoop_terminates (today as_of_date : Date) (fuel : Nat)
    (r : RecurringTransaction) (execs : Nat) (txns : List Transaction)
    (hval : r.next_execution_date.Valid)
    (hcfg : configOK r.day_of_week r.day_of_month = true)
    (hfuel : rataDie as_of_date + 1 - rataDie r.next_execution_date < fuel) :
    (backfillLoop today as_of_date fuel r execs txns).isSome := by
  induction fuel generalizing r execs txns with
  | zero => omega
  | succ m ih =>
    simp only [backfillLoop]
    split
    · split
      · simp
      · rename_i hguard hend
        have hdle : rataDie r.next_execution_date ≤ rataDie as_of_date := by
          have := (Bool.and_eq_true _ _).mp hguard
          exact (dle_iff _ _).mp this.2
        obtain ⟨hgt, hval2⟩ := nextAfter_gt r.next_execution_date r.frequency
          r.day_of_week r.day_of_month hval hcfg
        apply ih
        · exact hval2
        · exact hcfg
        · dsimp only
          omega
    · simp

/-- The due-occurrence sequence of a schedule: index 0 is the current cursor
and each following entry is one recurrence step later. -/
def occurrence (r : RecurringTransaction) : Nat → Date
  | 0 => r.next_execution_date
  | i + 1 =>
    calculate_next_execution_after (occurrence r i) r.frequency r.day_of_week r.day_of_month

theorem occurrence_valid_ge (r : RecurringTransaction)
    (hval : r.next_execution_date.Valid)
    (hcfg : configOK r.day_of_week r.day_of_month = true) (i : Nat) :
    (occurrence r i).Valid ∧ rataDie r.next_execution_date + i ≤ rataDie (occurrence r i) := by
  induction i with
  | zero => exact ⟨hval, by simp only [occurrence]; omega⟩
  | succ k ih =>
    obtain ⟨hv, hge⟩ := ih
    obtain ⟨hgt, hv2⟩ :=
      nextAfter_gt (occurrence r k) r.frequency r.day_of_week r.day_of_month hv hcfg
    refine ⟨hv2, ?_⟩
    simp only [occurrence]
    omega

theorem occurrence_shift (r r2 : RecurringTransaction)
    (hf : r2.frequency = r.frequency) (hw : r2.day_of_week = r.day_of_week)
    (hm : r2.day_of_month = r.day_of_month)
    (hn : r2.next_execution_date = occurrence r 1) (i : Nat) :
    occurrence r2 i = occurrence r (i + 1) := by
  induction i with
  | zero => exact hn
  | succ k ih => simp only [occurrence, ih, hf, hw, hm]

theorem backfillLoop_exact (today as_of_date : Date) (N : Nat) :
    ∀ (r : RecurringTransaction) (execs : Nat) (txns : List Transaction) (fuel : Nat),
      (0 < N → r.is_active = true) →
      r.next_execution_date.Valid →
      configOK r.day_of_week r.day_of_month = true →
      (∀ i, i < N → rataDie (occurrence r i) ≤ rataDie as_of_date) →
      rataDie as_of_date < rataDie (occurrence r N) →
      (∀ i e, i < N → r.end_date = some e → rataDie (occurrence r i) ≤ rataDie e) →
      N < fuel →
      ∃ st, backfillLoop today as_of_date fuel r execs txns = some st ∧
        st.executions = execs + N ∧
        st.created.length = txns.length + N ∧
        st.recurring.next_execution_date = occurrence r N := by
  induction N with
  | zero =>
    intro r execs txns fuel hact hval hcfg hdue hafter hend hfuel
    obtain ⟨f2, rfl⟩ : ∃ f2, fuel = f2 + 1 := ⟨fuel - 1, by omega⟩
    refine ⟨⟨r, execs, txns⟩, ?_, by dsimp only; omega, by dsimp only; omega, rfl⟩
    have hfalse : dle r.next_execution_date as_of_date = false := by
      simp only [occurrence] at hafter
      simp [dle]
      omega
    simp [backfillLoop, hfalse]
  | succ N ih =>
    intro r execs txns fuel hact hval hcfg hdue hafter hend hfuel
    obtain ⟨f2, rfl⟩ : ∃ f2, fuel = f2 + 1 := ⟨fuel - 1, by omega⟩
    have hact1 : r.is_active = true := hact (by omega)
    have hdle0 : dle r.next_execution_date as_of_date = true := by
      have h0 := hdue 0 (by omega)
      simp only [occurrence] at h0
      simp [dle]
      omega
    have hendF : endDateBefore r r.next_execution_date = false := by
      unfold endDateBefore
      cases he : r.end_date with
      | none => rfl
      | some e =>
        have := hend 0 e (by omega) he
        simp only [occurrence] at this
        simp [dlt]
        omega
    obtain ⟨hval1, _⟩ := occurrence_valid_ge r hval hcfg 1
    have hendO1 : 0 < N → endDateBefore r (occurrence r 1) = false := by
      intro hN
      unfold endDateBefore
      cases he : r.end_date with
      | none => rfl
      | some e =>
        have := hend 1 e (by omega) he
        simp [dlt]
        omega
    have hstep : backfillLoop today as_of_date (f2 + 1) r execs txns =
        backfillLoop today as_of_date f2
          { r with next_execution_date := occurrence r 1,
                   last_executed_at := some today,
                   is_active := if endDateBefore r (occurrence r 1) then false
                     else r.is_active }
          (execs + 1) (txns ++ [create_transaction_from_recurring r today]) := by
      simp [backfillLoop, occurrence, hact1, hdle0, hendF]
    have hshift := occurrence_shift r
      { r with next_execution_date := occurrence r 1,
               last_executed_at := some today,
               is_active := if endDateBefore r (occurrence r 1) then false
                 else r.is_active }
      rfl rfl rfl rfl
    obtain ⟨st, hst, h1, h2, h3⟩ := ih
      { r with next_execution_date := occurrence r 1,
               last_executed_at := some today,
               is_active := if endDateBefore r (occurrence r 1) then false
                 else r.is_active }
      (execs + 1) (txns ++ [create_transaction_from_recurring r today]) f2
      (by intro hN; dsimp only; rw [hendO1 hN]; exact hact1)
      (by dsimp only; exact hval1)
      (by dsimp only; exact hcfg)
      (by intro i hi; rw [hshift i]; exact hdue (i + 1) (by omega))
      (by rw [hshift N]; exact hafter)
      (by intro i e hi he; rw [hshift i]; exact hend (i + 1) e (by omega) he)
      (by omega)
    refine ⟨st, ?_, by omega, by simp at h2; omega, by rw [h3, hshift N]⟩
    rw [hstep]
    exact hst

theorem foldl_processReportItem (sweep : RecurringTransaction → Except String Nat)
    (items : List RecurringTransaction) :
    ∀ report : RecurringExecutionReport,
      items.foldl (processReportItem sweep) report =
        { report with
            successful_executions :=
              report.successful_executions + sweepSuccessTotal sweep items,
            failed_executions :=
              report.failed_executions + (sweepFailures sweep items).length,
            errors := report.errors ++ sweepFailures sweep items } := by
  induction items with
  | nil =>
    intro report
    cases report
    simp [sweepSuccessTotal, sweepFailures]
  | cons item rest ih =>
    intro report
    rw [List.foldl_cons, ih]
    cases report
    cases hs : sweep item <;>
      simp [processReportItem, sweepSuccessTotal, sweepFailures, hs] <;>
      omega

theorem replaceDay_28_valid (x : Date) (h : x.Valid) : (replaceDay x 28).Valid := by
  obtain ⟨h1, h2, h3, h4, h5⟩ := h
  exact Date.valid_mk _ _ _ h1 h2 h3 (by omega) (daysInMonth_ge_28 _ _)

/-- Example daily schedule used to instantiate the general theorems at
concrete values. -/
def exampleDaily : RecurringTransaction :=
  { id := 1, workspace_id := 1, user_id := 1, type := .expense, account_id := 1,
    category_id := 1, amount := 5000, description := none, frequency := .daily,
    day_of_week := none, day_of_month := none, start_date := ⟨2024, 1, 1⟩,
    end_date := none, next_execution_date := ⟨2024, 1, 1⟩,
    last_executed_at := none, is_active := true }

/-- C1: for every active schedule whose cursor is exactly `N` recurrence steps
at or before `as_of_date` — all `N` elapsed due occurrences at or before the
target date and none of them past the end date — a single call of the backfill
sweep returns `N`, creates exactly `N` ledger transactions, and leaves the
schedule's `next_execution_date` strictly greater than `as_of_date`. -/
theorem C1_backfill_sweep_materializes_exactly_N (today as_of_date : Date)
    (r : RecurringTransaction) (N : Nat)
    (hact : r.is_active = true)
    (hval : r.next_execution_date.Valid)
    (hcfg : configOK r.day_of_week r.day_of_month = true)
    (hdue : ∀ i, i < N → rataDie (occurrence r i) ≤ rataDie as_of_date)
    (hafter : rataDie as_of_date < rataDie (occurrence r N))
    (hend : ∀ i e, i < N → r.end_date = some e →
      rataDie (occurrence r i) ≤ rataDie e) :
    ∃ st, execute_backfill_for_recurring today as_of_date r = some st ∧
      st.executions = N ∧ st.created.length = N ∧
      rataDie as_of_date < rataDie st.recurring.next_execution_date := by
  have hge := fun i => (occurrence_valid_ge r hval hcfg i).2
  have hNfuel : N < sweepFuel as_of_date r := by
    unfold sweepFuel
    rcases Nat.eq_zero_or_pos N with h0 | hpos
    · omega
    · have ha := hdue (N - 1) (by omega)
      have hb := hge (N - 1)
      omega
  obtain ⟨st, hst, h1, h2, h3⟩ := backfillLoop_exact today as_of_date N r 0 []
    (sweepFuel as_of_date r) (fun _ => hact) hval hcfg hdue hafter hend hNfuel
  refine ⟨st, ?_, by omega, by simpa using h2, by rw [h3]; exact hafter⟩
  unfold execute_backfill_for_recurring
  rw [hact]
  simpa using hst

/-- C1 witness: a daily schedule two days behind an `as_of_date` of
2024-01-02 backfills exactly two occurrences. -/
theorem C1_witness :
    ∃ st, execute_backfill_for_recurring ⟨2024, 1, 2⟩ ⟨2024, 1, 2⟩ exampleDaily =
        some st ∧
      st.executions = 2 ∧ st.created.length = 2 ∧
      rataDie ⟨2024, 1, 2⟩ < rataDie st.recurring.next_execution_date :=
  C1_backfill_sweep_materializes_exactly_N ⟨2024, 1, 2⟩ ⟨2024, 1, 2⟩ exampleDaily 2
    rfl (by decide) rfl
    (by intro i hi; interval_cases i <;> decide)
    (by decide)
    (fun i e _ he => Option.noConfusion (show (none : Option Date) = some e from he))

/-- C2: the orchestrator records every per-schedule sweep failure as an error
record (schedule id, workspace id, message) with `failed_executions` bumped by
one and keeps processing; `processed_templates` is the number of schedules the
discovery returned and `successful_executions` is the sum of the per-schedule
occurrence counts; only a discovery failure propagates out. -/
theorem C2_orchestrator_isolation_and_report (as_of_date : Date)
    (sweep : RecurringTransaction → Except String Nat) :
    (∀ items : List RecurringTransaction,
      execute_pending_for_all_users as_of_date (.ok items) sweep =
        .ok { as_of_date := as_of_date,
              processed_templates := items.length,
              successful_executions := sweepSuccessTotal sweep items,
              failed_executions := (sweepFailures sweep items).length,
              errors := sweepFailures sweep items }) ∧
    (∀ e : String,
      execute_pending_for_all_users as_of_date (.error e) sweep = .error e) := by
  constructor
  · intro items
    unfold execute_pending_for_all_users
    dsimp only
    rw [foldl_processReportItem]
    simp
  · intro e
    rfl

/-- C3: for every frequency class and every admissible configuration,
`next_due_after` strictly advances any valid date, and therefore the backfill
sweep loop terminates (returns within its fuel bound) for any target date. -/
theorem C3_next_due_advances_and_sweep_terminates :
    (∀ (d : Date) (freq : RecurringFrequency) (dow dom : Option Nat),
      d.Valid → configOK dow dom = true →
      rataDie d < rataDie (calculate_next_execution_after d freq dow dom)) ∧
    (∀ (today as_of_date : Date) (r : RecurringTransaction),
      r.next_execution_date.Valid →
      configOK r.day_of_week r.day_of_month = true →
      (execute_backfill_for_recurring today as_of_date r).isSome) := by
  constructor
  · intro d freq dow dom h hc
    exact (nextAfter_gt d freq dow dom h hc).1
  · intro today as_of_date r hval hcfg
    unfold execute_backfill_for_recurring
    split
    · simp
    · exact backfillLoop_terminates today as_of_date (sweepFuel as_of_date r) r 0 []
        hval hcfg (by unfold sweepFuel; omega)

/-- C3 witness: a monthly step from 2024-01-31 strictly advances, and the
sweep on the example schedule terminates. -/
theorem C3_witness :
    rataDie ⟨2024, 1, 31⟩ <
      rataDie (calculate_next_execution_after ⟨2024, 1, 31⟩ .monthly none (some 31)) ∧
    (execute_backfill_for_recurring ⟨2024, 1, 2⟩ ⟨2024, 1, 2⟩ exampleDaily).isSome :=
  ⟨C3_next_due_advances_and_sweep_terminates.1 ⟨2024, 1, 31⟩ .monthly none (some 31)
      (by decide) (by decide),
   C3_next_due_advances_and_sweep_terminates.2 ⟨2024, 1, 2⟩ ⟨2024, 1, 2⟩ exampleDaily
      (by decide) (by decide)⟩

/-- C4: on-demand `execute` on an inactive schedule raises the inactive error
with no writes and no transaction; on an active schedule whose end date is
strictly before today it persists `is_active := false` and then raises the
expired error, creating no transaction. -/
theorem C4_inactive_and_expired_failure_paths (r : RecurringTransaction)
    (today : Date) :
    (r.is_active = false → execute r today = ⟨.error .inactive, r, []⟩) ∧
    (∀ e, r.is_active = true → r.end_date = some e → rataDie e < rataDie today →
      execute r today = ⟨.error .expired, { r with is_active := false }, []⟩) := by
  constructor
  · intro h
    unfold execute
    rw [h]
    rfl
  · intro e ha he hlt
    have hb : endDateBefore r today = true := by
      unfold endDateBefore
      rw [he]
      exact (dlt_iff e today).mpr hlt
    unfold execute
    rw [ha, hb]
    rfl

/-- C4 witness: both failure paths at concrete schedules. -/
theorem C4_witness :
    execute { exampleDaily with is_active := false } ⟨2024, 1, 5⟩ =
      ⟨.error .inactive, { exampleDaily with is_active := false }, []⟩ ∧
    execute { exampleDaily with end_date := some ⟨2024, 1, 2⟩ } ⟨2024, 1, 5⟩ =
      ⟨.error .expired,
        { exampleDaily with end_date := some ⟨2024, 1, 2⟩, is_active := false }, []⟩ :=
  ⟨(C4_inactive_and_expired_failure_paths _ _).1 rfl,
   (C4_inactive_and_expired_failure_paths _ _).2 ⟨2024, 1, 2⟩ rfl rfl (by decide)⟩

/-- C5: on-demand `execute` on an active schedule whose cursor is in the past
and whose end date is today or later succeeds once, creating exactly one
transaction dated today, and advances the cursor to `next_due_after` of
`max(next_execution_date, today)` (which is today); the missed past
occurrences get no transactions. -/
theorem C5_execute_catchup_once (r : RecurringTransaction) (today : Date)
    (hact : r.is_active = true)
    (hpast : rataDie r.next_execution_date < rataDie today)
    (hend : ∀ e, r.end_date = some e → rataDie today ≤ rataDie e) :
    (execute r today).result = .ok (create_transaction_from_recurring r today) ∧
    (execute r today).created = [create_transaction_from_recurring r today] ∧
    (create_transaction_from_recurring r today).transaction_date = today ∧
    dateMax r.next_execution_date today = today ∧
    (execute r today).recurring.next_execution_date =
      calculate_next_execution_after (dateMax r.next_execution_date today)
        r.frequency r.day_of_week r.day_of_month := by
  have hb : endDateBefore r today = false := by
    unfold endDateBefore
    cases he : r.end_date with
    | none => rfl
    | some e =>
      have := hend e he
      simp [dlt]
      omega
  have hmax : dateMax r.next_execution_date today = today := by
    unfold dateMax
    rw [(dlt_iff _ _).mpr hpast]
    rfl
  refine ⟨?_, ?_, rfl, hmax, ?_⟩ <;> simp [execute, hact, hb]

/-- C5 witness: cursor three days in the past, end date two days ahead. -/
theorem C5_witness :
    (execute { exampleDaily with end_date := some ⟨2024, 1, 6⟩ } ⟨2024, 1, 4⟩).result =
      .ok (create_transaction_from_recurring
        { exampleDaily with end_date := some ⟨2024, 1, 6⟩ } ⟨2024, 1, 4⟩) ∧
    (execute { exampleDaily with end_date := some ⟨2024, 1, 6⟩ } ⟨2024, 1, 4⟩).created =
      [create_transaction_from_recurring
        { exampleDaily with end_date := some ⟨2024, 1, 6⟩ } ⟨2024, 1, 4⟩] ∧
    (create_transaction_from_recurring
      { exampleDaily with end_date := some ⟨2024, 1, 6⟩ } ⟨2024, 1, 4⟩).transaction_date =
      ⟨2024, 1, 4⟩ ∧
    dateMax { exampleDaily with
      end_date := some ⟨2024, 1, 6⟩ }.next_execution_date ⟨2024, 1, 4⟩ = ⟨2024, 1, 4⟩ ∧
    (execute { exampleDaily with end_date := some ⟨2024, 1, 6⟩ } ⟨2024, 1, 4⟩).recurring.next_execution_date =
      calculate_next_execution_after
        (dateMax { exampleDaily with
          end_date := some ⟨2024, 1, 6⟩ }.next_execution_date ⟨2024, 1, 4⟩)
        .daily none none :=
  C5_execute_catchup_once { exampleDaily with end_date := some ⟨2024, 1, 6⟩ }
    ⟨2024, 1, 4⟩ rfl (by decide)
    (by
      intro e he
      have h2 : (⟨2024, 1, 6⟩ : Date) = e := Option.some.inj he
      rw [← h2]
      decide)

/-- Repeated application of the weekly `next_due_after` step from a start
date. -/
def iterWeekly (w : Nat) (dom : Option Nat) (d : Date) : Nat → Date
  | 0 => d
  | n + 1 => calculate_next_execution_after (iterWeekly w dom d n) .weekly (some w) dom

/-- C6: for every `day_of_week` in 0..6 and every valid date, the weekly
`next_due_after` lands exactly on the configured weekday between 1 and 7 days
strictly after the input, and hence its repeated application from any start is
strictly increasing and stays on the configured weekday. -/
theorem C6_weekly_next_due_weekday_progression (w : Nat) (hw : w ≤ 6)
    (dom : Option Nat) (d : Date) (h : d.Valid) :
    (weekday (calculate_next_execution_after d .weekly (some w) dom) = w ∧
     rataDie d + 1 ≤ rataDie (calculate_next_execution_after d .weekly (some w) dom) ∧
     rataDie (calculate_next_execution_after d .weekly (some w) dom) ≤ rataDie d + 7) ∧
    (∀ n : Nat,
      rataDie (iterWeekly w dom d n) < rataDie (iterWeekly w dom d (n + 1)) ∧
      weekday (iterWeekly w dom d (n + 1)) = w) := by
  have step : ∀ x : Date, x.Valid →
      (calculate_next_execution_after x .weekly (some w) dom).Valid ∧
      weekday (calculate_next_execution_after x .weekly (some w) dom) = w ∧
      rataDie x + 1 ≤ rataDie (calculate_next_execution_after x .weekly (some w) dom) ∧
      rataDie (calculate_next_execution_after x .weekly (some w) dom) ≤ rataDie x + 7 := by
    intro x hx
    obtain ⟨k, hk1, hk2, hk3, hk4⟩ := nextAfter_weekly x hx w hw dom
    rw [hk3]
    refine ⟨addDays_valid k x hx, hk4, ?_, ?_⟩ <;> rw [rataDie_addDays k x hx] <;> omega
  have hiter : ∀ n, (iterWeekly w dom d n).Valid := by
    intro n
    induction n with
    | zero => exact h
    | succ m ih => exact (step _ ih).1
  refine ⟨⟨(step d h).2.1, (step d h).2.2.1, (step d h).2.2.2⟩, ?_⟩
  intro n
  obtain ⟨_, ha, hb, _⟩ := step (iterWeekly w dom d n) (hiter n)
  constructor
  · show rataDie (iterWeekly w dom d n) <
      rataDie (calculate_next_execution_after (iterWeekly w dom d n) .weekly (some w) dom)
    omega
  · show weekday
      (calculate_next_execution_after (iterWeekly w dom d n) .weekly (some w) dom) = w
    exact ha

/-- C6 witness: from Monday 2024-01-01 with `day_of_week = 3` the next due
date is the following Thursday, three days later. -/
theorem C6_witness :
    weekday (calculate_next_execution_after ⟨2024, 1, 1⟩ .weekly (some 3) none) = 3 ∧
    rataDie ⟨2024, 1, 1⟩ + 1 ≤
      rataDie (calculate_next_execution_after ⟨2024, 1, 1⟩ .weekly (some 3) none) ∧
    rataDie (calculate_next_execution_after ⟨2024, 1, 1⟩ .weekly (some 3) none) ≤
      rataDie ⟨2024, 1, 1⟩ + 7 :=
  (C6_weekly_next_due_weekday_progression 3 (by decide) none ⟨2024, 1, 1⟩ (by decide)).1

/-- C7: for every monthly configuration with `day_of_month` in 29..31 and any
valid anchor dates, both the first-due calculator and `next_due_after` land on
day 28 of a valid date (so `date.replace` never raises), in every month
including February. -/
theorem C7_monthly_clamp_always_day_28 (n : Nat) (hn : 29 ≤ n) (_hn2 : n ≤ 31) :
    (∀ d : Date, d.Valid →
      (calculate_next_execution_after d .monthly none (some n)).day = 28 ∧
      (calculate_next_execution_after d .monthly none (some n)).Valid) ∧
    (∀ start_date today : Date, start_date.Valid → today.Valid →
      (calculate_next_execution .monthly none (some n) start_date today).day = 28 ∧
      (calculate_next_execution .monthly none (some n) start_date today).Valid) := by
  have hmin : min n 28 = 28 := by omega
  constructor
  · intro d hd
    obtain ⟨hval, _, hday⟩ := nextAfter_monthly_dom d hd n (by omega)
    rw [hmin] at hday
    exact ⟨hday, hval⟩
  · intro start_date today hs ht
    have both : ∀ x : Date, x.Valid →
        (replaceDay (if 28 < x.day then addOneMonth x else x) 28).day = 28 ∧
        (replaceDay (if 28 < x.day then addOneMonth x else x) 28).Valid := by
      intro x hx
      split
      · exact ⟨rfl, replaceDay_28_valid _ (addOneMonth_valid _ hx)⟩
      · exact ⟨rfl, replaceDay_28_valid _ hx⟩
    unfold calculate_next_execution
    dsimp only
    rw [hmin]
    exact both _ (by split <;> [exact hs; exact ht])

/-- C7 witness: `day_of_month = 31` anchored at 2024-01-31 gives day 28 for
both calculators. -/
theorem C7_witness :
    ((calculate_next_execution_after ⟨2024, 1, 31⟩ .monthly none (some 31)).day = 28 ∧
      (calculate_next_execution_after ⟨2024, 1, 31⟩ .monthly none (some 31)).Valid) ∧
    ((calculate_next_execution .monthly none (some 31) ⟨2024, 1, 31⟩ ⟨2024, 1, 15⟩).day = 28 ∧
      (calculate_next_execution .monthly none (some 31) ⟨2024, 1, 31⟩ ⟨2024, 1, 15⟩).Valid) :=
  ⟨(C7_monthly_clamp_always_day_28 31 (by decide) (by decide)).1 ⟨2024, 1, 31⟩ (by decide),
   (C7_monthly_clamp_always_day_28 31 (by decide) (by decide)).2 ⟨2024, 1, 31⟩
      ⟨2024, 1, 15⟩ (by decide) (by decide)⟩

/-- C8 counterexample: creating the monthly schedule with
`start_date = 2024-01-31`, `day_of_month = 31` on 2024-01-15 (a current date
on or before the start date) computes 2024-02-28, not the claimed
2024-01-28. -/
theorem C8_counterexample :
    rataDie ⟨2024, 1, 15⟩ ≤ rataDie ⟨2024, 1, 31⟩ ∧
    calculate_next_execution .monthly none (some 31) ⟨2024, 1, 31⟩ ⟨2024, 1, 15⟩ =
      ⟨2024, 2, 28⟩ ∧
    calculate_next_execution .monthly none (some 31) ⟨2024, 1, 31⟩ ⟨2024, 1, 15⟩ ≠
      ⟨2024, 1, 28⟩ := by
  refine ⟨by decide, by decide, by decide⟩

/-- C8 amended: with `start_date = 2024-01-31`, `day_of_month = 31` and any
current date on or before the start date, the first due date is 2024-02-28 —
not an error and not 2024-02-31 (the 31st exceeds the clamp of 28, so the
anchor rolls one month forward and lands on the 28th). -/
theorem C8_amended_monthly_jan31_yields_feb28 (today : Date)
    (hle : rataDie today ≤ rataDie ⟨2024, 1, 31⟩) :
    calculate_next_execution .monthly none (some 31) ⟨2024, 1, 31⟩ today =
      ⟨2024, 2, 28⟩ := by
  have hdle : dle today ⟨2024, 1, 31⟩ = true := (dle_iff _ _).mpr hle
  unfold calculate_next_execution
  rw [hdle]
  rfl

/-- C8 amended witness at a concrete creation date. -/
theorem C8_witness :
    rataDie ⟨2024, 1, 15⟩ ≤ rataDie ⟨2024, 1, 31⟩ ∧
    calculate_next_execution .monthly none (some 31) ⟨2024, 1, 31⟩ ⟨2024, 1, 15⟩ =
      ⟨2024, 2, 28⟩ :=
  ⟨by decide, C8_amended_monthly_jan31_yields_feb28 ⟨2024, 1, 15⟩ (by decide)⟩

/-- C9 counterexample: Monday 2024-01-01 with `day_of_week = 0` — the anchor
already matches the configured weekday, yet the first-due calculator returns
2024-01-08, one week later, not the anchor itself. -/
theorem C9_counterexample :
    weekday ⟨2024, 1, 1⟩ = 0 ∧
    calculate_next_execution .weekly (some 0) none ⟨2024, 1, 1⟩ ⟨2024, 1, 1⟩ =
      ⟨2024, 1, 8⟩ ∧
    (⟨2024, 1, 8⟩ : Date) ≠ ⟨2024, 1, 1⟩ := by
  refine ⟨by decide, by decide, by decide⟩

/-- C9 amended: when `max(start_date, today)` already falls on the configured
`day_of_week`, the weekly first-due calculator returns that date plus seven
days — the match is exclusive, one week later, not inclusive. -/
theorem C9_amended_weekly_match_is_exclusive (start_date today : Date) (w : Nat)
    (hmatch : weekday (if dle today start_date then start_date else today) = w) :
    calculate_next_execution .weekly (some w) none start_date today =
      addDays 7 (if dle today start_date then start_date else today) := by
  unfold calculate_next_execution
  dsimp only
  rw [hmatch]
  simp

/-- C9 amended witness: start and today both Monday 2024-01-01, weekday 0. -/
theorem C9_witness :
    weekday (if dle ⟨2024, 1, 1⟩ ⟨2024, 1, 1⟩ then ⟨2024, 1, 1⟩ else ⟨2024, 1, 1⟩) = 0 ∧
    calculate_next_execution .weekly (some 0) none ⟨2024, 1, 1⟩ ⟨2024, 1, 1⟩ =
      addDays 7 (if dle ⟨2024, 1, 1⟩ ⟨2024, 1, 1⟩ then ⟨2024, 1, 1⟩ else ⟨2024, 1, 1⟩) :=
  ⟨by decide, C9_amended_weekly_match_is_exclusive ⟨2024, 1, 1⟩ ⟨2024, 1, 1⟩ 0 (by decide)⟩

/-- C10: on-demand `execute` never checks that the schedule is due: an active
schedule with a cursor strictly after today and an end date not in the past
still executes, creating exactly one transaction and advancing the cursor from
the future date itself. -/
theorem C10_execute_never_checks_due (r : RecurringTransaction) (today : Date)
    (hact : r.is_active = true)
    (hfut : rataDie today < rataDie r.next_execution_date)
    (hend : ∀ e, r.end_date = some e → rataDie today ≤ rataDie e) :
    (execute r today).result = .ok (create_transaction_from_recurring r today) ∧
    (execute r today).created = [create_transaction_from_recurring r today] ∧
    (execute r today).recurring.next_execution_date =
      calculate_next_execution_after r.next_execution_date
        r.frequency r.day_of_week r.day_of_month := by
  have hb : endDateBefore r today = false := by
    unfold endDateBefore
    cases he : r.end_date with
    | none => rfl
    | some e =>
      have := hend e he
      simp [dlt]
      omega
  have hmax : dateMax r.next_execution_date today = r.next_execution_date := by
    unfold dateMax
    have : dlt r.next_execution_date today = false := by
      simp [dlt]
      omega
    rw [this]
    rfl
  refine ⟨?_, ?_, ?_⟩ <;> simp [execute, hact, hb, hmax]

/-- C10 witness: cursor 2024-02-01, today 2024-01-04 — the future occurrence
is materialized early. -/
theorem C10_witness :
    (execute { exampleDaily with next_execution_date := ⟨2024, 2, 1⟩ } ⟨2024, 1, 4⟩).result =
      .ok (create_transaction_from_recurring
        { exampleDaily with next_execution_date := ⟨2024, 2, 1⟩ } ⟨2024, 1, 4⟩) ∧
    (execute { exampleDaily with next_execution_date := ⟨2024, 2, 1⟩ } ⟨2024, 1, 4⟩).created =
      [create_transaction_from_recurring
        { exampleDaily with next_execution_date := ⟨2024, 2, 1⟩ } ⟨2024, 1, 4⟩] ∧
    (execute { exampleDaily with next_execution_date := ⟨2024, 2, 1⟩ } ⟨2024, 1, 4⟩).recurring.next_execution_date =
      calculate_next_execution_after
        { exampleDaily with next_execution_date := ⟨2024, 2, 1⟩ }.next_execution_date
        .daily none none :=
  C10_execute_never_checks_due { exampleDaily with next_execution_date := ⟨2024, 2, 1⟩ }
    ⟨2024, 1, 4⟩ rfl (by decide)
    (fun e he => Option.noConfusion (show (none : Option Date) = some e from he))

end Finances
